import Mathlib

/-!
Shallow embedding of the multi-BAM merge reader
(`src/src/api/internal/BamMultiReader_p.cpp`, class `BamMultiReaderPrivate`).

The coordinator's own code (Open, CloseFiles, GetNextAlignment /
PopNextCachedAlignment, SaveNextAlignment, UpdateAlignmentCache,
CreateAlignmentCache, Jump, SetRegion, Rewind, RewindReaders,
ValidateReaders) is translated function-by-function below.  External
collaborators that are not part of this repository slice — the per-file
`BamReader`, the `IMultiMerger` alignment cache, `SamHeader` parsing and the
`Algorithms::Sort` comparison policies — are modelled from the spec where
indicated.

Pointer identity of readers (`BamReader*`) is rendered as a numeric reader
id `rid` allocated at open time; the C++ `MergeItem` pairs a reader pointer
with its owned pending-alignment buffer, which here becomes a reader slot
`MergeItem` (rid + reader state) in the reader collection and a cache entry
`CacheItem` (rid + pending record value) in the merge buffer.
-/

/-- One reference-sequence dictionary entry (C++ `RefData`: `RefName`,
`RefLength`). -/
structure RefData where
  RefName : String
  RefLength : Int
deriving DecidableEq, Repr

/-- Modelled from the spec: the delivered record (C++ `BamAlignment`),
restricted to the fields the coordinator reads or writes: the positional
sort keys (`RefID`, `Position`), the query name (`Name`, used by the
name-based ordering policy), the originating-file stamp (`Filename`, set by
`PopNextCachedAlignment` when full data is requested) and a flag standing
for the lazily materialized character data (`BuildCharData`). -/
structure BamAlignment where
  RefID : Int
  Position : Int
  Name : String
  Filename : String
  hasCharData : Bool
deriving DecidableEq, Repr

/-- Modelled from the spec: the per-file `BamReader` collaborator, reduced
to the facets the coordinator consumes: its filename, its header's
sort-order field, its reference dictionary, its remaining (not yet
fetched) records `pending`, the full record sequence `fileRecords` that a
successful `Rewind` restores, and whether its `Rewind` succeeds
(`rewindOk`, the external seek-failure mode). `GetNextAlignmentCore`
advances the cursor by taking the head of `pending`. -/
structure BamReader where
  filename : String
  sortOrder : String
  refData : List RefData
  fileRecords : List BamAlignment
  pending : List BamAlignment
  rewindOk : Bool
deriving DecidableEq, Repr

/-- A reader slot of `m_readers` (C++ `MergeItem`: reader pointer plus its
owned pending-record buffer): reader identity `rid` plus reader state. -/
structure MergeItem where
  rid : Nat
  reader : BamReader
deriving DecidableEq, Repr

/-- An entry of the alignment cache (the C++ `MergeItem` as stored in the
`IMultiMerger`): the originating reader's identity and the pending record
value held by that reader's alignment buffer. -/
structure CacheItem where
  rid : Nat
  al : BamAlignment
deriving DecidableEq, Repr

/-- The three concrete ordering policies of the merge buffer
(`MultiMerger<Sort::ByPosition>`, `MultiMerger<Sort::ByName>`,
`MultiMerger<Sort::Unsorted>`). -/
inductive SortPolicy where
  | byPosition
  | byName
  | unsorted
deriving DecidableEq, Repr

/-- Modelled from the spec: coordinate order (`Algorithms::Sort::ByPosition`),
primary key reference ID, secondary key position. -/
def byPositionLE (a b : BamAlignment) : Bool :=
  decide (a.RefID < b.RefID ∨ (a.RefID = b.RefID ∧ a.Position ≤ b.Position))

/-- Modelled from the spec: query-name lexical order
(`Algorithms::Sort::ByName`). -/
def byNameLE (a b : BamAlignment) : Bool :=
  decide (a.Name ≤ b.Name)

/-- The comparison a policy applies; the unsorted policy compares nothing
(everything ties, so the earliest inserted item is taken first). -/
def policyLE : SortPolicy → BamAlignment → BamAlignment → Bool
  | .byPosition, a, b => byPositionLE a b
  | .byName, a, b => byNameLE a b
  | .unsorted, _, _ => true

/-- Strict version of `policyLE`. -/
def policyLT (p : SortPolicy) (a b : BamAlignment) : Bool :=
  policyLE p a b && !(policyLE p b a)

/-- Modelled from the spec: the merge buffer's take-minimum operation
(`IMultiMerger::TakeFirst`).  Returns the earliest inserted minimal item
together with the remaining items in their original order; `none` on an
empty buffer.  Under the unsorted policy no item is strictly smaller than
another, so the first inserted item is taken. -/
def takeFirst (p : SortPolicy) : List CacheItem → Option (CacheItem × List CacheItem)
  | [] => none
  | x :: xs =>
    match takeFirst p xs with
    | none => some (x, [])
    | some (m, rest') =>
      if policyLT p m.al x.al then some (m, x :: rest') else some (x, xs)

/-- The full coordinator state (`BamMultiReaderPrivate`): the reader
collection `m_readers`, the alignment cache `m_alignmentCache` (`none`
models the null pointer; otherwise the selected ordering policy and the
buffer contents in insertion order), and the allocator for reader
identities (standing for pointer freshness). -/
structure MultiReaderState where
  readers : List MergeItem
  cache : Option (SortPolicy × List CacheItem)
  nextId : Nat
deriving DecidableEq, Repr

/-- Freshly constructed coordinator: no readers, null cache. -/
def initialState : MultiReaderState :=
  { readers := [], cache := none, nextId := 0 }

/-- The cache contents viewed as a list (empty when the cache is null). -/
def cacheItems (s : MultiReaderState) : List CacheItem :=
  match s.cache with
  | none => []
  | some (_, items) => items

namespace BamMultiReaderPrivate

/-- Sort-order field of the composed header (`GetHeader` /
`GetHeaderText`): the merged header copies the first reader's header text
and only appends read-group entries from the others, so its sort-order
field is the first reader's; with no readers the header text is empty and
the parsed sort order is the empty string. -/
def GetHeaderSortOrder (s : MultiReaderState) : String :=
  match s.readers with
  | [] => ""
  | item :: _ => item.reader.sortOrder

/-- `CreateAlignmentCache`: selects the merge policy from the composed
header's sort-order field (`SAM_HD_SORTORDER_COORDINATE` = "coordinate",
`SAM_HD_SORTORDER_QUERYNAME` = "queryname"); any other value falls through
to the unsorted merger.  The C++ function returns `new MultiMerger<...>`,
which never yields a null pointer, so creation is total. -/
def CreateAlignmentCache (s : MultiReaderState) : SortPolicy :=
  if GetHeaderSortOrder s = "coordinate" then .byPosition
  else if GetHeaderSortOrder s = "queryname" then .byName
  else .unsorted

/-- `SaveNextAlignment` applied to one reader slot: if the reader can
produce a record (`GetNextAlignmentCore`), the reader advances and a fresh
cache item for it is appended to the buffer (`IMultiMerger::Add`); an
exhausted reader is left unchanged and contributes no item. -/
def SaveNextAlignment (item : MergeItem) (items : List CacheItem) :
    MergeItem × List CacheItem :=
  match item.reader.pending with
  | [] => (item, items)
  | a :: tl =>
    ({ item with reader := { item.reader with pending := tl } },
     items ++ [⟨item.rid, a⟩])

/-- The priming loop of `UpdateAlignmentCache`: saves the next alignment of
every reader, in reader order, into an initially cleared buffer. -/
def primeReaders : List MergeItem → List MergeItem × List CacheItem
  | [] => ([], [])
  | item :: rest =>
    ((SaveNextAlignment item []).1 :: (primeReaders rest).1,
     (SaveNextAlignment item []).2 ++ (primeReaders rest).2)

/-- `UpdateAlignmentCache`: creates the cache (selecting a policy) when it
is null, clears it, and re-primes it with one lookahead record per reader.
The C++ null-check failure branch after creation is unreachable because
`CreateAlignmentCache` always returns a merger, so the update always
reports success. -/
def UpdateAlignmentCache (s : MultiReaderState) : MultiReaderState × Bool :=
  let policy :=
    match s.cache with
    | some (p, _) => p
    | none => CreateAlignmentCache s
  ({ s with
       readers := (primeReaders s.readers).1,
       cache := some (policy, (primeReaders s.readers).2) },
   true)

/-- Replace the state of the reader with identity `rid` (the effect of
mutating through the stored reader pointer). -/
def setReader (readers : List MergeItem) (rid : Nat) (r : BamReader) :
    List MergeItem :=
  readers.map fun mi => if mi.rid = rid then { mi with reader := r } else mi

/-- `PopNextCachedAlignment(al, needCharData)`: fails on a null or empty
cache; otherwise takes the buffer's first (minimum) item, materializes
character data and stamps the originating filename when requested, copies
the record out to the caller, and refills the buffer from the same reader
via `SaveNextAlignment`.  Returns (success, caller's alignment, new
state). -/
def PopNextCachedAlignment (s : MultiReaderState) (al : BamAlignment)
    (needCharData : Bool) : Bool × BamAlignment × MultiReaderState :=
  match s.cache with
  | none => (false, al, s)
  | some (p, items) =>
    match takeFirst p items with
    | none => (false, al, s)
    | some (item, rest) =>
      match s.readers.find? (fun mi => mi.rid = item.rid) with
      | none =>
        -- C++ guard `reader == 0`: the item was already removed from the
        -- cache when this failure is reported (unreachable for states
        -- whose cache items all belong to live readers).
        (false, al, { s with cache := some (p, rest) })
      | some mi =>
        let delivered :=
          if needCharData then
            { item.al with hasCharData := true, Filename := mi.reader.filename }
          else item.al
        match mi.reader.pending with
        | [] =>
          (true, delivered, { s with cache := some (p, rest) })
        | a :: tl =>
          (true, delivered,
           { s with
               readers := setReader s.readers item.rid { mi.reader with pending := tl },
               cache := some (p, rest ++ [⟨item.rid, a⟩]) })

/-- `GetNextAlignment`: pop with full character data. -/
def GetNextAlignment (s : MultiReaderState) (al : BamAlignment) :
    Bool × BamAlignment × MultiReaderState :=
  PopNextCachedAlignment s al true

/-- `GetNextAlignmentCore`: pop without materializing character data. -/
def GetNextAlignmentCore (s : MultiReaderState) (al : BamAlignment) :
    Bool × BamAlignment × MultiReaderState :=
  PopNextCachedAlignment s al false

/-- Remove the cache entry owned by reader `rid`
(`IMultiMerger::Remove(reader)`), a no-op on a null cache. -/
def cacheRemove (c : Option (SortPolicy × List CacheItem)) (rid : Nat) :
    Option (SortPolicy × List CacheItem) :=
  match c with
  | none => none
  | some (p, items) => some (p, items.filter fun it => it.rid ≠ rid)

/-- The inner loop of `CloseFiles` for one filename: an empty filename is
skipped; otherwise the first reader whose filename matches is removed from
the cache and from the reader collection (the C++ loop breaks after the
first match). -/
def closeOneFilename (s : MultiReaderState) (filename : String) :
    MultiReaderState :=
  if filename = "" then s
  else
    match s.readers.find? (fun mi => mi.reader.filename = filename) with
    | none => s
    | some mi =>
      { s with
          readers := s.readers.eraseP (fun mi' => mi'.reader.filename = filename),
          cache := cacheRemove s.cache mi.rid }

/-- `CloseFiles`: closes the first matching reader of each requested
filename, then clears and releases the cache if no readers remain. -/
def CloseFiles (s : MultiReaderState) (filenames : List String) :
    MultiReaderState :=
  let s1 := filenames.foldl closeOneFilename s
  if s1.readers.isEmpty && s1.cache.isSome then { s1 with cache := none }
  else s1

/-- `CloseFile`: close one filename. -/
def CloseFile (s : MultiReaderState) (filename : String) : MultiReaderState :=
  CloseFiles s [filename]

/-- Modelled from the spec: one reader's `Rewind` — on success the cursor
returns to the first record; on failure the reader is unchanged and the
failure is reported. -/
def rewindReader (r : BamReader) : BamReader × Bool :=
  if r.rewindOk then ({ r with pending := r.fileRecords }, true) else (r, false)

/-- `RewindReaders`: attempts `Rewind` on every reader (no early exit) and
aggregates success by conjunction. -/
def RewindReaders : List MergeItem → List MergeItem × Bool
  | [] => ([], true)
  | mi :: rest =>
    ({ mi with reader := (rewindReader mi.reader).1 } :: (RewindReaders rest).1,
     (rewindReader mi.reader).2 && (RewindReaders rest).2)

/-- `Rewind`: rewinds all readers; on any per-reader failure reports
failure without touching the alignment cache, otherwise returns the result
of the cache update. -/
def Rewind (s : MultiReaderState) : MultiReaderState × Bool :=
  let s1 := { s with readers := (RewindReaders s.readers).1 }
  if !(RewindReaders s.readers).2 then (s1, false)
  else UpdateAlignmentCache s1

/-- The per-reader seek loop shared by `Jump` and `SetRegion`: every reader
is attempted independently (a failed seek only warns, leaving that reader
as the external seek left it — modelled as unchanged).  The seek itself is
an external `BamReader` operation, passed in as an oracle returning `none`
on failure. -/
def seekReaders (seek : BamReader → Option BamReader) (s : MultiReaderState) :
    MultiReaderState :=
  { s with
      readers := s.readers.map fun mi =>
        match seek mi.reader with
        | some r' => { mi with reader := r' }
        | none => mi }

/-- `Jump(refID, position)`: attempt the jump on every reader, then return
the status of the cache update alone. -/
def Jump (seek : BamReader → Option BamReader) (s : MultiReaderState) :
    MultiReaderState × Bool :=
  UpdateAlignmentCache (seekReaders seek s)

/-- `SetRegion(region)`: attempt the region seek on every reader, then
return the status of the cache update alone. -/
def SetRegion (seek : BamReader → Option BamReader) (s : MultiReaderState) :
    MultiReaderState × Bool :=
  UpdateAlignmentCache (seekReaders seek s)

/-- The ValidateReaders inner comparison of two reference dictionaries of
equal size: entry-for-entry equality of name and length, walking all
entries of the first reader's dictionary. -/
def refEntriesEq : List RefData → List RefData → Bool
  | [], _ => true
  | _ :: _, [] => true
  | a :: as, b :: bs =>
    (a.RefName = b.RefName && a.RefLength = b.RefLength) && refEntriesEq as bs

/-- The `ValidateReaders` loop body over the reader collection: each reader
is compared with the first reader — sort order first, then reference count
(the C++ code compares both the reader-reported count and the container
size, which coincide in this model), then the dictionaries entry by entry;
the first mismatching reader makes the whole validation fail immediately. -/
def validateLoop (first : BamReader) : List MergeItem → Bool
  | [] => true
  | mi :: rest =>
    if mi.reader.sortOrder ≠ first.sortOrder then false
    else if mi.reader.refData.length ≠ first.refData.length then false
    else if !refEntriesEq first.refData mi.reader.refData then false
    else validateLoop first rest

/-- `ValidateReaders`: trivially succeeds with no readers; otherwise checks
every reader (including the first, against itself) against the first
reader. -/
def ValidateReaders (s : MultiReaderState) : Bool :=
  match s.readers with
  | [] => true
  | firstItem :: _ => validateLoop firstItem.reader s.readers

/-- The file-opening loop of `Open`: empty filenames are skipped; each
other filename is attempted regardless of earlier failures (the external
`BamReader::Open` is the oracle, `none` meaning the open failed and the
reader object is discarded); successful opens are appended to the reader
collection with a fresh identity and a fresh pending-record buffer. -/
def openAll (oracle : String → Option BamReader) :
    List String → MultiReaderState → MultiReaderState × Bool
  | [], s => (s, true)
  | f :: rest, s =>
    if f = "" then openAll oracle rest s
    else
      match oracle f with
      | some r =>
        openAll oracle rest
          { s with readers := s.readers ++ [⟨s.nextId, r⟩], nextId := s.nextId + 1 }
      | none => ((openAll oracle rest s).1, false)

/-- `Open(filenames)`: ANDs in the result of an initial `Rewind`, performs
a second `Rewind` whose result is discarded, attempts every filename,
validates the readers when more than one is open afterward, and finally
ANDs in the cache update's status. -/
def Open (oracle : String → Option BamReader) (filenames : List String)
    (s : MultiReaderState) : MultiReaderState × Bool :=
  let r1 := Rewind s
  let r2 := Rewind r1.1
  let o := openAll oracle filenames r2.1
  let v := if 1 < o.1.readers.length then ValidateReaders o.1 else true
  let u := UpdateAlignmentCache o.1
  (u.1, r1.2 && o.2 && v && u.2)

/-- `OpenFile`: open a single filename. -/
def OpenFile (oracle : String → Option BamReader) (filename : String)
    (s : MultiReaderState) : MultiReaderState × Bool :=
  Open oracle [filename] s

end BamMultiReaderPrivate

open BamMultiReaderPrivate

/-! ### Helper notions used to state and prove properties -/

/-- The effect of `SaveNextAlignment` on the reader slot alone. -/
def advanceOne (mi : MergeItem) : MergeItem :=
  match mi.reader.pending with
  | [] => mi
  | _ :: tl => { mi with reader := { mi.reader with pending := tl } }

/-- The cache entry `SaveNextAlignment` contributes for one reader slot
(`none` for an exhausted reader). -/
def lookaheadOf (mi : MergeItem) : Option CacheItem :=
  match mi.reader.pending with
  | [] => none
  | a :: _ => some ⟨mi.rid, a⟩

/-- The effect of one seek attempt on one reader slot (failure leaves the
slot as is). -/
def applySeek (seek : BamReader → Option BamReader) (mi : MergeItem) :
    MergeItem :=
  match seek mi.reader with
  | some r' => { mi with reader := r' }
  | none => mi

/-- The reader slots the opening loop appends, given the next fresh
identity: one slot per non-empty filename the oracle opens successfully. -/
def openedReaders (oracle : String → Option BamReader) :
    List String → Nat → List MergeItem
  | [], _ => []
  | f :: rest, n =>
    if f = "" then openedReaders oracle rest n
    else
      match oracle f with
      | some r => ⟨n, r⟩ :: openedReaders oracle rest (n + 1)
      | none => openedReaders oracle rest n

/-- A throwaway alignment used as the caller's output argument when
enumerating the delivered stream. -/
def dummyAl : BamAlignment :=
  { RefID := 0, Position := 0, Name := "", Filename := "", hasCharData := false }

/-- The sequence of records delivered by at most `n` repeated successful
`GetNextAlignment` calls. -/
def streamN : Nat → MultiReaderState → List BamAlignment
  | 0, _ => []
  | n + 1, s =>
    match GetNextAlignment s dummyAl with
    | (true, al, s') => al :: streamN n s'
    | (false, _, _) => []

/-- Structural coordinator invariant: reader identities are distinct and
below the allocator, every cache entry belongs to a live reader, and each
reader owns at most one cache entry (cache identities are distinct). -/
def StateInv (s : MultiReaderState) : Prop :=
  (s.readers.map MergeItem.rid).Nodup ∧
  (∀ mi ∈ s.readers, mi.rid < s.nextId) ∧
  (∀ it ∈ cacheItems s, it.rid ∈ s.readers.map MergeItem.rid) ∧
  ((cacheItems s).map CacheItem.rid).Nodup

/-- Lookahead coherence: while a cache exists, a reader without a cache
entry has reached end-of-data (its produced-but-undelivered lookahead is
exactly its cache entry). -/
def CacheCoherent (s : MultiReaderState) : Prop :=
  s.cache.isSome = true →
    ∀ mi ∈ s.readers, (∀ it ∈ cacheItems s, it.rid ≠ mi.rid) →
      mi.reader.pending = []

/-- Coordinate order as a proposition. -/
def PosLE (a b : BamAlignment) : Prop := byPositionLE a b = true

instance (a b : BamAlignment) : Decidable (PosLE a b) :=
  inferInstanceAs (Decidable (byPositionLE a b = true))

instance (s : MultiReaderState) : Decidable (StateInv s) := by
  unfold StateInv
  infer_instance

instance (s : MultiReaderState) : Decidable (CacheCoherent s) := by
  unfold CacheCoherent
  infer_instance

/-- What a reader must agree about with the first reader for validation:
the sort-order header field, the reference count and every (name, length)
dictionary entry in order — jointly, dictionary equality. -/
def readerAgrees (first r : BamReader) : Prop :=
  r.sortOrder = first.sortOrder ∧
  r.refData.length = first.refData.length ∧
  refEntriesEq first.refData r.refData = true

instance (first r : BamReader) : Decidable (readerAgrees first r) := by
  unfold readerAgrees
  infer_instance

/-- Invariant of a coordinate-merging state: the cache uses the coordinate
policy, identities are coherent, every reader's remaining records are
sorted by coordinate, and each cache entry is a lower bound of its
reader's remaining records. -/
def MergeSortedInv (s : MultiReaderState) : Prop :=
  (∃ items, s.cache = some (.byPosition, items)) ∧
  (s.readers.map MergeItem.rid).Nodup ∧
  (∀ it ∈ cacheItems s, it.rid ∈ s.readers.map MergeItem.rid) ∧
  ((cacheItems s).map CacheItem.rid).Nodup ∧
  (∀ mi ∈ s.readers, mi.reader.pending.Pairwise PosLE) ∧
  (∀ it ∈ cacheItems s, ∀ mi ∈ s.readers, mi.rid = it.rid →
    ∀ a ∈ mi.reader.pending, PosLE it.al a)

/-! ### Concrete inputs used by witnesses and counterexamples -/

/-- A coordinate-sorted single-record file content at position 10. -/
def recA : BamAlignment :=
  { RefID := 0, Position := 10, Name := "readA", Filename := "", hasCharData := false }

/-- A coordinate-sorted single-record file content at position 5. -/
def recB : BamAlignment :=
  { RefID := 0, Position := 5, Name := "readB", Filename := "", hasCharData := false }

/-- A shared one-entry reference dictionary. -/
def demoRef : List RefData := [⟨"ref1", 100⟩]

/-- Reader for `a.bam`: coordinate-sorted, one record at (0, 10). -/
def readerA : BamReader :=
  { filename := "a.bam", sortOrder := "coordinate", refData := demoRef,
    fileRecords := [recA], pending := [recA], rewindOk := true }

/-- Reader for `b.bam`: coordinate-sorted, one record at (0, 5). -/
def readerB : BamReader :=
  { filename := "b.bam", sortOrder := "coordinate", refData := demoRef,
    fileRecords := [recB], pending := [recB], rewindOk := true }

/-- Reader for `c.bam`: agrees with the others but its `Rewind` fails. -/
def readerC : BamReader :=
  { filename := "c.bam", sortOrder := "coordinate", refData := demoRef,
    fileRecords := [recB], pending := [recB], rewindOk := false }

/-- External open oracle providing `a.bam` and `b.bam`. -/
def demoOracle : String → Option BamReader := fun f =>
  if f = "a.bam" then some readerA
  else if f = "b.bam" then some readerB
  else none

/-- External open oracle providing the rewind-failing `c.bam` and `b.bam`. -/
def demoOracle2 : String → Option BamReader := fun f =>
  if f = "c.bam" then some readerC
  else if f = "b.bam" then some readerB
  else none

/-- A coordinator on which `a.bam` and `b.bam` are open. -/
def demoOpened : MultiReaderState :=
  (Open demoOracle ["a.bam", "b.bam"] initialState).1

/-- A coordinator on which only the rewind-failing `c.bam` is open. -/
def demoOpenedC : MultiReaderState :=
  (Open demoOracle2 ["c.bam"] initialState).1

/-- A coordinator on which an `Open` of no filenames succeeded: no readers,
but an allocated (empty, unsorted) merge buffer. -/
def demoEmptyOpened : MultiReaderState :=
  (Open demoOracle [] initialState).1

/-! ### Properties of the ordering policies and the take-minimum contract -/

theorem policyLE_total (p : SortPolicy) (a b : BamAlignment) :
    policyLE p a b = true ∨ policyLE p b a = true := by
  cases p with
  | byPosition =>
    simp only [policyLE, byPositionLE, decide_eq_true_eq]
    omega
  | byName =>
    simp only [policyLE, byNameLE, decide_eq_true_eq]
    exact le_total a.Name b.Name
  | unsorted => simp [policyLE]

theorem policyLE_trans (p : SortPolicy) (a b c : BamAlignment)
    (hab : policyLE p a b = true) (hbc : policyLE p b c = true) :
    policyLE p a c = true := by
  cases p with
  | byPosition =>
    simp only [policyLE, byPositionLE, decide_eq_true_eq] at hab hbc ⊢
    omega
  | byName =>
    simp only [policyLE, byNameLE, decide_eq_true_eq] at hab hbc ⊢
    exact le_trans hab hbc
  | unsorted => simp [policyLE]

theorem policyLE_of_not_lt (p : SortPolicy) (a b : BamAlignment)
    (h : ¬ policyLT p a b = true) : policyLE p b a = true := by
  rcases policyLE_total p b a with h1 | h1
  · exact h1
  · simp only [policyLT, h1, Bool.true_and, Bool.not_eq_true',
      Bool.not_eq_false] at h
    exact h

theorem policyLT_le (p : SortPolicy) (a b : BamAlignment)
    (h : policyLT p a b = true) : policyLE p a b = true := by
  simp only [policyLT, Bool.and_eq_true] at h
  exact h.1

theorem takeFirst_eq_none (p : SortPolicy) (l : List CacheItem) :
    takeFirst p l = none ↔ l = [] := by
  cases l with
  | nil => simp [takeFirst]
  | cons x xs =>
    simp only [takeFirst]
    cases hxs : takeFirst p xs with
    | none => simp
    | some mr =>
      obtain ⟨m, rest'⟩ := mr
      by_cases hlt : policyLT p m.al x.al = true <;> simp [hlt]

theorem takeFirst_perm (p : SortPolicy) :
    ∀ (l : List CacheItem) (it : CacheItem) (rest : List CacheItem),
      takeFirst p l = some (it, rest) → l.Perm (it :: rest) := by
  intro l
  induction l with
  | nil => intro it rest h; simp [takeFirst] at h
  | cons x xs ih =>
    intro it rest h
    simp only [takeFirst] at h
    cases hxs : takeFirst p xs with
    | none =>
      rw [hxs] at h
      simp only [Option.some.injEq, Prod.mk.injEq] at h
      rw [← h.1, ← h.2]
      have hnil : xs = [] := (takeFirst_eq_none p xs).1 hxs
      rw [hnil]
    | some mr =>
      obtain ⟨m, rest'⟩ := mr
      rw [hxs] at h
      dsimp only at h
      by_cases hlt : policyLT p m.al x.al = true
      · rw [if_pos hlt] at h
        simp only [Option.some.injEq, Prod.mk.injEq] at h
        rw [← h.1, ← h.2]
        exact ((ih m rest' hxs).cons x).trans (List.Perm.swap m x rest')
      · rw [if_neg hlt] at h
        simp only [Option.some.injEq, Prod.mk.injEq] at h
        rw [← h.1, ← h.2]

theorem takeFirst_min (p : SortPolicy) :
    ∀ (l : List CacheItem) (it : CacheItem) (rest : List CacheItem),
      takeFirst p l = some (it, rest) →
      ∀ o ∈ rest, policyLE p it.al o.al = true := by
  intro l
  induction l with
  | nil => intro it rest h; simp [takeFirst] at h
  | cons x xs ih =>
    intro it rest h o ho
    simp only [takeFirst] at h
    cases hxs : takeFirst p xs with
    | none =>
      rw [hxs] at h
      simp only [Option.some.injEq, Prod.mk.injEq] at h
      rw [← h.2] at ho
      simp at ho
    | some mr =>
      obtain ⟨m, rest'⟩ := mr
      rw [hxs] at h
      dsimp only at h
      by_cases hlt : policyLT p m.al x.al = true
      · rw [if_pos hlt] at h
        simp only [Option.some.injEq, Prod.mk.injEq] at h
        rw [← h.1]
        rw [← h.2] at ho
        rcases List.mem_cons.1 ho with hox | ho'
        · rw [hox]
          exact policyLT_le p m.al x.al hlt
        · exact ih m rest' hxs o ho'
      · rw [if_neg hlt] at h
        simp only [Option.some.injEq, Prod.mk.injEq] at h
        rw [← h.1]
        rw [← h.2] at ho
        have hxm : policyLE p x.al m.al = true := policyLE_of_not_lt p m.al x.al hlt
        have homem : o ∈ m :: rest' := (takeFirst_perm p xs m rest' hxs).mem_iff.1 ho
        rcases List.mem_cons.1 homem with hom | ho'
        · rw [hom]
          exact hxm
        · exact policyLE_trans p _ _ _ hxm (ih m rest' hxs o ho')

theorem takeFirst_mem (p : SortPolicy) (l : List CacheItem) (it : CacheItem)
    (rest : List CacheItem) (h : takeFirst p l = some (it, rest)) : it ∈ l :=
  (takeFirst_perm p l it rest h).mem_iff.2 (List.mem_cons_self it rest)

theorem takeFirst_rest_mem (p : SortPolicy) (l : List CacheItem) (it : CacheItem)
    (rest : List CacheItem) (h : takeFirst p l = some (it, rest)) :
    ∀ o ∈ rest, o ∈ l := fun o ho =>
  (takeFirst_perm p l it rest h).mem_iff.2 (List.mem_cons_of_mem it ho)

/-! ### The refill loop and the cache update -/

theorem advanceOne_rid (mi : MergeItem) : (advanceOne mi).rid = mi.rid := by
  cases hp : mi.reader.pending with
  | nil => simp [advanceOne, hp]
  | cons a tl => simp [advanceOne, hp]

theorem lookaheadOf_rid (mi : MergeItem) (it : CacheItem)
    (h : lookaheadOf mi = some it) : it.rid = mi.rid := by
  cases hp : mi.reader.pending with
  | nil => simp [lookaheadOf, hp] at h
  | cons a tl =>
    simp only [lookaheadOf, hp, Option.some.injEq] at h
    rw [← h]

theorem saveNext_fst (mi : MergeItem) (items : List CacheItem) :
    (SaveNextAlignment mi items).1 = advanceOne mi := by
  cases hp : mi.reader.pending with
  | nil => simp [SaveNextAlignment, advanceOne, hp]
  | cons a tl => simp [SaveNextAlignment, advanceOne, hp]

theorem saveNext_snd (mi : MergeItem) (items : List CacheItem) :
    (SaveNextAlignment mi items).2 = items ++ (lookaheadOf mi).toList := by
  cases hp : mi.reader.pending with
  | nil => simp [SaveNextAlignment, lookaheadOf, hp]
  | cons a tl => simp [SaveNextAlignment, lookaheadOf, hp]

theorem primeReaders_fst (l : List MergeItem) :
    (primeReaders l).1 = l.map advanceOne := by
  induction l with
  | nil => rfl
  | cons mi rest ih => simp [primeReaders, saveNext_fst, ih]

theorem primeReaders_snd (l : List MergeItem) :
    (primeReaders l).2 = l.filterMap lookaheadOf := by
  induction l with
  | nil => rfl
  | cons mi rest ih =>
    simp only [primeReaders, saveNext_snd, List.nil_append, ih,
      List.filterMap_cons]
    cases hl : lookaheadOf mi <;> simp [hl]

theorem map_rid_advance (l : List MergeItem) :
    ((l.map advanceOne).map MergeItem.rid) = l.map MergeItem.rid := by
  induction l with
  | nil => rfl
  | cons mi rest ih => simp [advanceOne_rid, ih]

theorem lookahead_rids_sublist (l : List MergeItem) :
    ((l.filterMap lookaheadOf).map CacheItem.rid).Sublist (l.map MergeItem.rid) := by
  induction l with
  | nil => simp
  | cons mi rest ih =>
    rw [List.filterMap_cons]
    cases hl : lookaheadOf mi with
    | none =>
      simp only [List.map_cons]
      exact ih.cons mi.rid
    | some it =>
      simp only [List.map_cons]
      rw [lookaheadOf_rid mi it hl]
      exact ih.cons₂ mi.rid

theorem lookahead_mem (l : List MergeItem) (it : CacheItem)
    (h : it ∈ l.filterMap lookaheadOf) : ∃ mi ∈ l, mi.rid = it.rid := by
  rcases List.mem_filterMap.1 h with ⟨mi, hmi, hlk⟩
  exact ⟨mi, hmi, (lookaheadOf_rid mi it hlk).symm⟩

theorem prime_coherent (l : List MergeItem) :
    ∀ mi' ∈ l.map advanceOne,
      (∀ it ∈ l.filterMap lookaheadOf, it.rid ≠ mi'.rid) →
      mi'.reader.pending = [] := by
  induction l with
  | nil => simp
  | cons mi rest ih =>
    intro mi' hmem hno
    rw [List.map_cons] at hmem
    rw [List.filterMap_cons] at hno
    cases hl : lookaheadOf mi with
    | none =>
      rw [hl] at hno
      rcases List.mem_cons.1 hmem with h1 | h2
      · cases hp : mi.reader.pending with
        | nil => rw [h1]; simp [advanceOne, hp]
        | cons a tl => exfalso; simp [lookaheadOf, hp] at hl
      · exact ih mi' h2 hno
    | some it0 =>
      rw [hl] at hno
      rcases List.mem_cons.1 hmem with h1 | h2
      · exfalso
        apply hno it0 (List.mem_cons_self _ _)
        rw [h1, advanceOne_rid]
        exact lookaheadOf_rid mi it0 hl
      · exact ih mi' h2 (fun it hit => hno it (List.mem_cons_of_mem _ hit))

theorem update_snd (s : MultiReaderState) : (UpdateAlignmentCache s).2 = true := rfl

theorem update_readers (s : MultiReaderState) :
    (UpdateAlignmentCache s).1.readers = s.readers.map advanceOne := by
  simp [UpdateAlignmentCache, primeReaders_fst]

theorem update_items (s : MultiReaderState) :
    cacheItems (UpdateAlignmentCache s).1 = s.readers.filterMap lookaheadOf := by
  simp [UpdateAlignmentCache, cacheItems, primeReaders_snd]

theorem update_cache_isSome (s : MultiReaderState) :
    (UpdateAlignmentCache s).1.cache.isSome = true := by
  simp [UpdateAlignmentCache]

theorem update_nextId (s : MultiReaderState) :
    (UpdateAlignmentCache s).1.nextId = s.nextId := by
  simp [UpdateAlignmentCache]

theorem update_inv (s : MultiReaderState) (h : StateInv s) :
    StateInv (UpdateAlignmentCache s).1 := by
  obtain ⟨h1, h2, h3, h4⟩ := h
  refine ⟨?_, ?_, ?_, ?_⟩
  · rw [update_readers, map_rid_advance]; exact h1
  · intro mi hmi
    rw [update_readers] at hmi
    rcases List.mem_map.1 hmi with ⟨mi0, hm0, hadv⟩
    rw [update_nextId, ← hadv, advanceOne_rid]
    exact h2 mi0 hm0
  · intro it hit
    rw [update_items] at hit
    rcases lookahead_mem _ it hit with ⟨mi0, hm0, hr⟩
    rw [update_readers, map_rid_advance, ← hr]
    exact List.mem_map_of_mem MergeItem.rid hm0
  · rw [update_items]
    exact (lookahead_rids_sublist s.readers).nodup h1

theorem update_coherent (s : MultiReaderState) :
    CacheCoherent (UpdateAlignmentCache s).1 := by
  intro _ mi hmi hno
  rw [update_readers] at hmi
  rw [update_items] at hno
  exact prime_coherent s.readers mi hmi hno

/-! ### The pop-and-refill protocol -/

theorem setReader_rids (readers : List MergeItem) (n : Nat) (r : BamReader) :
    (setReader readers n r).map MergeItem.rid = readers.map MergeItem.rid := by
  induction readers with
  | nil => rfl
  | cons mi rest ih =>
    simp only [setReader, List.map_cons] at ih ⊢
    by_cases h : mi.rid = n
    · simp only [if_pos h, ih]
    · simp only [if_neg h, ih]

theorem setReader_mem (readers : List MergeItem) (n : Nat) (r : BamReader) :
    ∀ x ∈ setReader readers n r, (x.rid = n ∧ x.reader = r) ∨ x ∈ readers := by
  intro x hx
  rcases List.mem_map.1 hx with ⟨y, hy, hxy⟩
  by_cases h : y.rid = n
  · left
    rw [← hxy]
    simp [h]
  · right
    rw [← hxy]
    simp only [if_neg h]
    exact hy

theorem setReader_mem_rid (readers : List MergeItem) (n : Nat) (r : BamReader) :
    ∀ x ∈ setReader readers n r, x ∈ readers ∨ x.rid = n := by
  intro x hx
  rcases setReader_mem readers n r x hx with h | h
  · exact Or.inr h.1
  · exact Or.inl h

theorem nodup_rid_inj (readers : List MergeItem)
    (h : (readers.map MergeItem.rid).Nodup) (x y : MergeItem)
    (hx : x ∈ readers) (hy : y ∈ readers) (hxy : x.rid = y.rid) : x = y :=
  List.inj_on_of_nodup_map h hx hy hxy

theorem find_rid (readers : List MergeItem) (n : Nat)
    (hex : n ∈ readers.map MergeItem.rid) :
    ∃ mi, readers.find? (fun x => x.rid = n) = some mi ∧
      mi ∈ readers ∧ mi.rid = n := by
  rcases List.mem_map.1 hex with ⟨mi0, hm0, hr⟩
  have hsome : (readers.find? (fun x => x.rid = n)).isSome := by
    apply List.find?_isSome.2
    exact ⟨mi0, hm0, by simp [hr]⟩
  rcases Option.isSome_iff_exists.1 hsome with ⟨mi, hmi⟩
  refine ⟨mi, hmi, List.mem_of_find?_eq_some hmi, ?_⟩
  have := List.find?_some hmi
  simpa using this

theorem pop_fail (s : MultiReaderState) (al : BamAlignment) (b : Bool)
    (h : s.cache = none ∨ cacheItems s = []) :
    PopNextCachedAlignment s al b = (false, al, s) := by
  rcases h with h | h
  · unfold PopNextCachedAlignment
    rw [h]
  · cases hc : s.cache with
    | none =>
      unfold PopNextCachedAlignment
      rw [hc]
    | some pi =>
      obtain ⟨p, items⟩ := pi
      have hit : items = [] := by simpa [cacheItems, hc] using h
      subst hit
      unfold PopNextCachedAlignment
      rw [hc]
      simp [takeFirst]

theorem pop_succ (s : MultiReaderState) (al : BamAlignment) (b : Bool)
    (p : SortPolicy) (items : List CacheItem) (hc : s.cache = some (p, items))
    (it : CacheItem) (rest : List CacheItem)
    (ht : takeFirst p items = some (it, rest))
    (mi : MergeItem)
    (hf : s.readers.find? (fun x => x.rid = it.rid) = some mi) :
    PopNextCachedAlignment s al b =
      (true,
       (if b then { it.al with hasCharData := true, Filename := mi.reader.filename }
        else it.al),
       (match mi.reader.pending with
        | [] => { s with cache := some (p, rest) }
        | a :: tl =>
          { s with
              readers := setReader s.readers it.rid { mi.reader with pending := tl },
              cache := some (p, rest ++ [⟨it.rid, a⟩]) })) := by
  unfold PopNextCachedAlignment
  rw [hc]
  dsimp only
  rw [ht]
  dsimp only
  rw [hf]
  dsimp only
  cases hp : mi.reader.pending with
  | nil => rfl
  | cons a tl => rfl

/-! ### Sortedness of the merged stream under the coordinate policy -/

theorem posLE_refl (a : BamAlignment) : PosLE a a := by
  simp [PosLE, byPositionLE]

theorem posLE_trans (a b c : BamAlignment) (h1 : PosLE a b) (h2 : PosLE b c) :
    PosLE a c := by
  simp only [PosLE, byPositionLE, decide_eq_true_eq] at h1 h2 ⊢
  omega

theorem pop_sorted_step (s : MultiReaderState) (hI : MergeSortedInv s)
    (hne : cacheItems s ≠ []) (b : Bool) (al0 : BamAlignment) :
    ∃ a s' it, PopNextCachedAlignment s al0 b = (true, a, s') ∧
      it ∈ cacheItems s ∧
      a.RefID = it.al.RefID ∧ a.Position = it.al.Position ∧
      MergeSortedInv s' ∧
      (∀ it' ∈ cacheItems s', PosLE it.al it'.al) := by
  obtain ⟨⟨items, hc⟩, hnod, hmemr, hnodc, hsort, hbound⟩ := hI
  have hcs : cacheItems s = items := by simp [cacheItems, hc]
  rw [hcs] at hne hmemr hnodc hbound
  have hnn : takeFirst .byPosition items ≠ none := fun h =>
    hne ((takeFirst_eq_none _ _).1 h)
  obtain ⟨⟨it, rest⟩, ht⟩ := Option.ne_none_iff_exists'.1 hnn
  have hitmem : it ∈ items := takeFirst_mem _ _ _ _ ht
  have hinr : it.rid ∈ s.readers.map MergeItem.rid := hmemr it hitmem
  obtain ⟨mi, hf, hmi, hrid⟩ := find_rid s.readers it.rid hinr
  have hpop := pop_succ s al0 b .byPosition items hc it rest ht mi hf
  have hndcons : (it.rid :: rest.map CacheItem.rid).Nodup := by
    have hp := (takeFirst_perm _ items it rest ht).map CacheItem.rid
    exact hp.nodup_iff.1 hnodc
  have hnotin : it.rid ∉ rest.map CacheItem.rid := (List.nodup_cons.1 hndcons).1
  have hndrest : (rest.map CacheItem.rid).Nodup := (List.nodup_cons.1 hndcons).2
  have hrestmem : ∀ o ∈ rest, o ∈ items := takeFirst_rest_mem _ items it rest ht
  have hmin : ∀ o ∈ rest, PosLE it.al o.al := fun o ho =>
    takeFirst_min _ items it rest ht o ho
  cases hp : mi.reader.pending with
  | nil =>
    rw [hp] at hpop
    refine ⟨_, _, it, hpop, by rw [hcs]; exact hitmem, ?_, ?_, ?_, ?_⟩
    · cases b <;> rfl
    · cases b <;> rfl
    · -- the invariant for the rest-only state
      refine ⟨⟨rest, by simp⟩, hnod, ?_, ?_, hsort, ?_⟩
      · intro it' hit'
        simp only [cacheItems] at hit'
        exact hmemr it' (hrestmem it' hit')
      · simpa [cacheItems] using hndrest
      · intro it' hit' mi' hmi' hr' a ha
        simp only [cacheItems] at hit'
        exact hbound it' (hrestmem it' hit') mi' hmi' hr' a ha
    · intro it' hit'
      simp only [cacheItems] at hit'
      exact hmin it' hit'
  | cons a0 tl =>
    rw [hp] at hpop
    have hpair : (a0 :: tl).Pairwise PosLE := hp ▸ hsort mi hmi
    have hhead : ∀ rec ∈ tl, PosLE a0 rec := (List.pairwise_cons.1 hpair).1
    have htail : tl.Pairwise PosLE := (List.pairwise_cons.1 hpair).2
    refine ⟨_, _, it, hpop, by rw [hcs]; exact hitmem, ?_, ?_, ?_, ?_⟩
    · cases b <;> rfl
    · cases b <;> rfl
    · -- the invariant for the refilled state
      refine ⟨⟨rest ++ [⟨it.rid, a0⟩], by simp⟩, ?_, ?_, ?_, ?_, ?_⟩
      · rw [setReader_rids]; exact hnod
      · intro it' hit'
        simp only [cacheItems] at hit'
        rw [setReader_rids]
        rcases List.mem_append.1 hit' with h1 | h1
        · exact hmemr it' (hrestmem it' h1)
        · rw [List.mem_singleton.1 h1]
          exact hinr
      · simp only [cacheItems, List.map_append, List.map_cons, List.map_nil]
        rw [List.nodup_append]
        refine ⟨hndrest, List.nodup_singleton _, ?_⟩
        intro x hx hx1
        rw [List.mem_singleton.1 hx1] at hx
        exact hnotin hx
      · intro mi' hmi'
        rcases setReader_mem _ _ _ mi' hmi' with ⟨_, hre⟩ | hin
        · rw [hre]; exact htail
        · exact hsort mi' hin
      · intro it' hit' mi' hmi' hr' rec hrec
        simp only [cacheItems] at hit'
        rcases List.mem_append.1 hit' with h1 | h1
        · -- an old item: its rid differs from the popped reader's
          have hne' : it'.rid ≠ it.rid := by
            intro heq
            apply hnotin
            rw [← heq]
            exact List.mem_map_of_mem CacheItem.rid h1
          rcases setReader_mem _ _ _ mi' hmi' with ⟨hr2, _⟩ | hin
          · exact absurd (hr'.symm.trans hr2) hne'
          · exact hbound it' (hrestmem it' h1) mi' hin hr' rec hrec
        · -- the refilled item
          rw [List.mem_singleton.1 h1] at hr' ⊢
          rcases setReader_mem _ _ _ mi' hmi' with ⟨_, hre⟩ | hin
          · rw [hre] at hrec
            exact hhead rec hrec
          · -- a reader of the original collection carrying the popped rid
            have : mi' = mi := nodup_rid_inj s.readers hnod mi' mi hin hmi (by rw [hr', hrid])
            rw [this, hp] at hrec
            rcases List.mem_cons.1 hrec with h2 | h2
            · rw [h2]; exact posLE_refl a0
            · exact hhead rec h2
    · intro it' hit'
      simp only [cacheItems] at hit'
      rcases List.mem_append.1 hit' with h1 | h1
      · exact hmin it' h1
      · rw [List.mem_singleton.1 h1]
        exact hbound it hitmem mi hmi hrid a0 (by rw [hp]; exact List.mem_cons_self _ _)

theorem stream_bound (n : Nat) :
    ∀ (s : MultiReaderState) (lb : BamAlignment),
      MergeSortedInv s → (∀ it ∈ cacheItems s, PosLE lb it.al) →
      ∀ x ∈ streamN n s, PosLE lb x := by
  induction n with
  | zero => intro s lb _ _ x hx; simp [streamN] at hx
  | succ n ih =>
    intro s lb hI hlb x hx
    by_cases hne : cacheItems s = []
    · rw [streamN,
        show GetNextAlignment s dummyAl = (false, dummyAl, s) from
          pop_fail s dummyAl true (Or.inr hne)] at hx
      simp at hx
    · obtain ⟨a, s', it, hpop, hmem, hrid, hpos, hI', hb'⟩ :=
        pop_sorted_step s hI hne true dummyAl
      rw [streamN,
        show GetNextAlignment s dummyAl = (true, a, s') from hpop] at hx
      rcases List.mem_cons.1 hx with h1 | hx'
      · have hlbit := hlb it hmem
        rw [h1]
        simp only [PosLE, byPositionLE, decide_eq_true_eq] at hlbit ⊢
        rw [hrid, hpos]
        exact hlbit
      · refine ih s' lb hI' ?_ x hx'
        intro it' hit'
        exact posLE_trans lb it.al it'.al (hlb it hmem) (hb' it' hit')

/-- Had the coordinate policy actually been selected for the merge buffer,
the pop-and-refill protocol would deliver a non-decreasing (referenceID,
position) stream: the merge algorithm itself is correct, for any state
satisfying the coordinate-merge invariant. -/
theorem merged_stream_sorted_byPosition (n : Nat) :
    ∀ s : MultiReaderState, MergeSortedInv s →
      (streamN n s).Chain' PosLE := by
  induction n with
  | zero => intro s _; simp [streamN]
  | succ n ih =>
    intro s hI
    by_cases hne : cacheItems s = []
    · rw [streamN,
        show GetNextAlignment s dummyAl = (false, dummyAl, s) from
          pop_fail s dummyAl true (Or.inr hne)]
      simp
    · obtain ⟨a, s', it, hpop, hmem, hrid, hpos, hI', hb'⟩ :=
        pop_sorted_step s hI hne true dummyAl
      rw [streamN,
        show GetNextAlignment s dummyAl = (true, a, s') from hpop]
      rw [show (match (true, a, s') with
            | (true, al, s1) => al :: streamN n s1
            | (false, _, _) => ([] : List BamAlignment)) = a :: streamN n s' from rfl]
      rw [List.chain'_cons']
      constructor
      · intro y hy
        have hyl : y ∈ streamN n s' := List.mem_of_mem_head? hy
        refine stream_bound n s' a hI' ?_ y hyl
        intro it' hit'
        have h1 : PosLE it.al it'.al := hb' it' hit'
        simp only [PosLE, byPositionLE, decide_eq_true_eq] at h1 ⊢
        rw [hrid, hpos]
        exact h1
      · exact ih s' hI'

/-! ### Claim C1 -/

/-- C1: the claim states that for coordinate-sorted readers whose composed
header declares coordinate order, the merged stream delivered after `Open`
is non-decreasing by (referenceID, position).  The code violates this: on a
fresh coordinator, `Open` first calls `Rewind`, whose `UpdateAlignmentCache`
creates the merge buffer while the reader collection is still empty, so the
policy is derived from an empty header and fixed to the unsorted merger;
the later cache update reuses it.  With `a.bam` holding (0, 10) and `b.bam`
holding (0, 5), both declared coordinate-sorted, `Open` succeeds, the
buffer policy is `unsorted`, and the two delivered records have positions
[10, 5] — a decreasing stream. -/
theorem claim_C1_code_bug_eval :
    (readerA.sortOrder = "coordinate" ∧ readerB.sortOrder = "coordinate" ∧
      readerA.fileRecords.Pairwise PosLE ∧ readerB.fileRecords.Pairwise PosLE) ∧
    (Open demoOracle ["a.bam", "b.bam"] initialState).2 = true ∧
    demoOpened.cache = some (.unsorted, [⟨0, recA⟩, ⟨1, recB⟩]) ∧
    (streamN 2 demoOpened).map BamAlignment.Position = [10, 5] ∧
    (streamN 2 demoOpened).map BamAlignment.Filename = ["a.bam", "b.bam"] ∧
    ¬ (streamN 2 demoOpened).Pairwise PosLE := by
  decide

/-! ### Claims C10 and C2 -/

/-- C10: whenever `GetNextAlignment` or `GetNextAlignmentCore` returns false
because the merge buffer is absent or empty, the caller's output alignment
argument is returned unchanged and the coordinator state (readers, buffer,
cursors) is not modified. -/
theorem claim_C10_failure_no_mutation (s : MultiReaderState) (al : BamAlignment)
    (h : s.cache = none ∨ cacheItems s = []) :
    GetNextAlignment s al = (false, al, s) ∧
    GetNextAlignmentCore s al = (false, al, s) :=
  ⟨pop_fail s al true h, pop_fail s al false h⟩

theorem claim_C10_witness :
    (initialState.cache = none ∨ cacheItems initialState = []) ∧
    GetNextAlignment initialState dummyAl = (false, dummyAl, initialState) ∧
    GetNextAlignmentCore initialState dummyAl = (false, dummyAl, initialState) :=
  ⟨Or.inl rfl,
   (claim_C10_failure_no_mutation initialState dummyAl (Or.inl rfl)).1,
   (claim_C10_failure_no_mutation initialState dummyAl (Or.inl rfl)).2⟩

/-- C2: a pop call fails when the merge buffer is absent or empty; on a
non-empty buffer (in a state whose cache entries belong to live readers) it
takes the buffer's minimum item (no remaining item is strictly smaller),
returns that item's record by value (stamped with char data and the
originating filename exactly when requested), asks the originating reader
for its next record and re-inserts a fresh item for that reader only when
one is available, and the reader collection keeps the same readers (by
identity) even when the reader is exhausted. -/
theorem claim_C2_pop_protocol (s : MultiReaderState) (al : BamAlignment) (b : Bool) :
    (s.cache = none ∨ cacheItems s = [] →
      PopNextCachedAlignment s al b = (false, al, s)) ∧
    (StateInv s → ∀ p items, s.cache = some (p, items) → items ≠ [] →
      ∃ it rest mi,
        takeFirst p items = some (it, rest) ∧
        mi ∈ s.readers ∧ mi.rid = it.rid ∧
        (∀ o ∈ rest, policyLE p it.al o.al = true) ∧
        PopNextCachedAlignment s al b =
          (true,
           (if b then { it.al with hasCharData := true, Filename := mi.reader.filename }
            else it.al),
           (match mi.reader.pending with
            | [] => { s with cache := some (p, rest) }
            | a :: tl =>
              { s with
                  readers := setReader s.readers it.rid { mi.reader with pending := tl },
                  cache := some (p, rest ++ [⟨it.rid, a⟩]) })) ∧
        ((PopNextCachedAlignment s al b).2.2.readers.map MergeItem.rid
           = s.readers.map MergeItem.rid)) := by
  constructor
  · intro h
    exact pop_fail s al b h
  · intro hInv p items hc hne
    have hcs : cacheItems s = items := by simp [cacheItems, hc]
    have hnn : takeFirst p items ≠ none := fun h => hne ((takeFirst_eq_none _ _).1 h)
    obtain ⟨⟨it, rest⟩, ht⟩ := Option.ne_none_iff_exists'.1 hnn
    obtain ⟨h1, h2, h3, h4⟩ := hInv
    have hinr : it.rid ∈ s.readers.map MergeItem.rid := by
      apply h3
      rw [hcs]
      exact takeFirst_mem _ _ _ _ ht
    obtain ⟨mi, hf, hmi, hrid⟩ := find_rid s.readers it.rid hinr
    have hpop := pop_succ s al b p items hc it rest ht mi hf
    refine ⟨it, rest, mi, ht, hmi, hrid, takeFirst_min p items it rest ht, hpop, ?_⟩
    rw [hpop]
    cases hp : mi.reader.pending with
    | nil => rfl
    | cons a tl =>
      dsimp only
      exact setReader_rids s.readers it.rid { mi.reader with pending := tl }

theorem claim_C2_witness :
    StateInv demoOpened ∧
    (∃ it rest mi,
      takeFirst .unsorted [⟨0, recA⟩, ⟨1, recB⟩] = some (it, rest) ∧
      mi ∈ demoOpened.readers ∧ mi.rid = it.rid ∧
      (∀ o ∈ rest, policyLE .unsorted it.al o.al = true) ∧
      PopNextCachedAlignment demoOpened dummyAl true =
        (true,
         (if true then { it.al with hasCharData := true, Filename := mi.reader.filename }
          else it.al),
         (match mi.reader.pending with
          | [] => { demoOpened with cache := some (.unsorted, rest) }
          | a :: tl =>
            { demoOpened with
                readers := setReader demoOpened.readers it.rid { mi.reader with pending := tl },
                cache := some (.unsorted, rest ++ [⟨it.rid, a⟩]) })) ∧
      ((PopNextCachedAlignment demoOpened dummyAl true).2.2.readers.map MergeItem.rid
         = demoOpened.readers.map MergeItem.rid)) :=
  ⟨by decide,
   (claim_C2_pop_protocol demoOpened dummyAl true).2 (by decide) SortPolicy.unsorted
     [⟨0, recA⟩, ⟨1, recB⟩] (by decide) (by decide)⟩

/-! ### Claims C6, C7 and C8 -/

/-- C6 counterexample: with no readers open, the claim says the merge
buffer cannot be created and the update operation fails; in the code the
update creates an unsorted-policy buffer and reports success. -/
theorem claim_C6_counterexample :
    initialState.readers = [] ∧
    (UpdateAlignmentCache initialState).2 = true ∧
    (UpdateAlignmentCache initialState).1.cache = some (.unsorted, []) := by
  decide

/-- C6 (amended): buffer creation never fails — when no readers are open,
or when the composed header's sort-order field maps to no recognized
ordering, an unsorted-policy merge buffer is created as a fallback, and the
buffer-update operation always reports success. -/
theorem claim_C6_buffer_fallback (s : MultiReaderState) :
    (UpdateAlignmentCache s).2 = true ∧
    (s.cache = none → s.readers = [] →
      (UpdateAlignmentCache s).1.cache = some (.unsorted, [])) ∧
    (s.cache = none →
      GetHeaderSortOrder s ≠ "coordinate" → GetHeaderSortOrder s ≠ "queryname" →
      (UpdateAlignmentCache s).1.cache =
        some (.unsorted, (primeReaders s.readers).2)) := by
  refine ⟨update_snd s, ?_, ?_⟩
  · intro hc hr
    simp [UpdateAlignmentCache, hc, CreateAlignmentCache, GetHeaderSortOrder, hr,
      primeReaders]
  · intro hc h1 h2
    simp [UpdateAlignmentCache, hc, CreateAlignmentCache, h1, h2]

theorem claim_C6_witness :
    (UpdateAlignmentCache initialState).2 = true ∧
    (UpdateAlignmentCache initialState).1.cache = some (.unsorted, []) :=
  ⟨(claim_C6_buffer_fallback initialState).1,
   (claim_C6_buffer_fallback initialState).2.1 rfl rfl⟩

theorem seekReaders_readers (seek : BamReader → Option BamReader)
    (s : MultiReaderState) :
    (seekReaders seek s).readers = s.readers.map (applySeek seek) := by
  simp only [seekReaders]
  apply List.map_congr_left
  intro mi _
  cases h : seek mi.reader <;> simp [applySeek, h]

/-- C7: for every `Jump` and `SetRegion`, the returned boolean is exactly
the merge-buffer rebuild's status (which never fails), so a per-reader seek
failure cannot affect the return value; and the seek is applied to every
reader slot independently — the i-th resulting reader is the seek applied
to the i-th original reader, regardless of failures elsewhere. -/
theorem claim_C7_jump_setregion (seek : BamReader → Option BamReader)
    (s : MultiReaderState) :
    Jump seek s = UpdateAlignmentCache (seekReaders seek s) ∧
    SetRegion seek s = UpdateAlignmentCache (seekReaders seek s) ∧
    (Jump seek s).2 = true ∧ (SetRegion seek s).2 = true ∧
    (seekReaders seek s).readers = s.readers.map (applySeek seek) ∧
    (∀ i (h : i < s.readers.length)
        (h' : i < (seekReaders seek s).readers.length),
      (seekReaders seek s).readers.get ⟨i, h'⟩ =
        applySeek seek (s.readers.get ⟨i, h⟩)) := by
  refine ⟨rfl, rfl, update_snd _, update_snd _, seekReaders_readers seek s, ?_⟩
  intro i h h'
  have he := seekReaders_readers seek s
  have : (seekReaders seek s).readers.get ⟨i, h'⟩ =
      (s.readers.map (applySeek seek)).get ⟨i, by rw [← he]; exact h'⟩ := by
    congr 1
  rw [this]
  exact List.get_map ..

theorem claim_C7_witness :
    Jump (fun _ => none) demoOpened =
      UpdateAlignmentCache (seekReaders (fun _ => none) demoOpened) ∧
    (Jump (fun _ => none) demoOpened).2 = true ∧
    (seekReaders (fun _ => none) demoOpened).readers.get
        ⟨0, by decide⟩ =
      applySeek (fun _ => none) (demoOpened.readers.get ⟨0, by decide⟩) :=
  ⟨(claim_C7_jump_setregion (fun _ => none) demoOpened).1,
   (claim_C7_jump_setregion (fun _ => none) demoOpened).2.2.1,
   (claim_C7_jump_setregion (fun _ => none) demoOpened).2.2.2.2.2 0
     (by decide) (by decide)⟩

theorem rewindReaders_snd (l : List MergeItem) :
    (RewindReaders l).2 = l.all (fun mi => mi.reader.rewindOk) := by
  induction l with
  | nil => rfl
  | cons mi rest ih =>
    simp only [RewindReaders, List.all_cons, ih]
    by_cases h : mi.reader.rewindOk = true
    · simp [rewindReader, h]
    · simp [rewindReader, h]

/-- C8: `Rewind` aggregates per-reader rewind success by conjunction over
all readers; when any reader's rewind fails it returns false without
touching the merge buffer (no rebuild is attempted), and when all rewinds
succeed it rebuilds/re-primes the buffer and returns the rebuild's
result. -/
theorem claim_C8_rewind (s : MultiReaderState) :
    ((RewindReaders s.readers).2 = s.readers.all (fun mi => mi.reader.rewindOk)) ∧
    ((RewindReaders s.readers).2 = false →
      Rewind s = ({ s with readers := (RewindReaders s.readers).1 }, false)) ∧
    ((RewindReaders s.readers).2 = false → (Rewind s).1.cache = s.cache) ∧
    ((RewindReaders s.readers).2 = true →
      Rewind s = UpdateAlignmentCache { s with readers := (RewindReaders s.readers).1 }) := by
  refine ⟨rewindReaders_snd s.readers, ?_, ?_, ?_⟩
  · intro h
    simp [Rewind, h]
  · intro h
    simp [Rewind, h]
  · intro h
    simp [Rewind, h]

theorem claim_C8_witness :
    (RewindReaders demoOpenedC.readers).2 = false ∧
    Rewind demoOpenedC =
      ({ demoOpenedC with readers := (RewindReaders demoOpenedC.readers).1 }, false) ∧
    (Rewind demoOpenedC).1.cache = demoOpenedC.cache :=
  ⟨by decide,
   (claim_C8_rewind demoOpenedC).2.1 (by decide),
   (claim_C8_rewind demoOpenedC).2.2.1 (by decide)⟩

/-! ### Claim C4 -/

theorem refEntriesEq_refl (as : List RefData) : refEntriesEq as as = true := by
  induction as with
  | nil => rfl
  | cons a as ih => simp [refEntriesEq, ih]

theorem refEntriesEq_iff (as : List RefData) :
    ∀ bs : List RefData, as.length = bs.length →
      (refEntriesEq as bs = true ↔ as = bs) := by
  induction as with
  | nil =>
    intro bs h
    cases bs with
    | nil => simp [refEntriesEq]
    | cons b bs => simp at h
  | cons a as ih =>
    intro bs h
    cases bs with
    | nil => simp at h
    | cons b bs =>
      have hlen : as.length = bs.length := by simpa using h
      simp only [refEntriesEq, Bool.and_eq_true, decide_eq_true_eq]
      constructor
      · rintro ⟨⟨h1, h2⟩, h3⟩
        have hab : a = b := by
          cases a; cases b
          simp only at h1 h2
          simp [h1, h2]
        rw [hab, (ih bs hlen).1 h3]
      · intro he
        rw [List.cons.injEq] at he
        refine ⟨⟨by rw [he.1], by rw [he.1]⟩, (ih bs hlen).2 he.2⟩

theorem validateLoop_iff (first : BamReader) (l : List MergeItem) :
    validateLoop first l = true ↔ ∀ mi ∈ l, readerAgrees first mi.reader := by
  induction l with
  | nil => simp [validateLoop]
  | cons mi rest ih =>
    simp only [validateLoop]
    by_cases h1 : mi.reader.sortOrder = first.sortOrder
    · by_cases h2 : mi.reader.refData.length = first.refData.length
      · by_cases h3 : refEntriesEq first.refData mi.reader.refData = true
        · simp [h1, h2, h3, ih, readerAgrees, List.forall_mem_cons]
        · simp [h1, h2, h3, readerAgrees, List.forall_mem_cons]
      · simp [h1, h2, readerAgrees, List.forall_mem_cons]
    · simp [h1, readerAgrees, List.forall_mem_cons]

theorem validateLoop_stops (first : BamReader) (mi : MergeItem)
    (hbad : ¬ readerAgrees first mi.reader) :
    ∀ (pre post post' : List MergeItem),
      validateLoop first (pre ++ mi :: post) =
        validateLoop first (pre ++ mi :: post') := by
  intro pre
  induction pre with
  | nil =>
    intro post post'
    simp only [List.nil_append, validateLoop]
    by_cases h1 : mi.reader.sortOrder = first.sortOrder
    · by_cases h2 : mi.reader.refData.length = first.refData.length
      · by_cases h3 : refEntriesEq first.refData mi.reader.refData = true
        · exact absurd ⟨h1, h2, h3⟩ hbad
        · simp [h1, h2, h3]
      · simp [h1, h2]
    · simp [h1]
  | cons x pre ih =>
    intro post post'
    simp only [List.cons_append, validateLoop]
    by_cases h1 : x.reader.sortOrder = first.sortOrder
    · by_cases h2 : x.reader.refData.length = first.refData.length
      · by_cases h3 : refEntriesEq first.refData x.reader.refData = true
        · simp only [h1, h2, h3]
          simp only [ne_eq, not_true_eq_false, if_false, Bool.not_true, if_neg]
          simp [ih post post']
        · simp [h1, h2, h3]
      · simp [h1, h2]
    · simp [h1]

/-- C4: validation over the reader collection succeeds exactly when every
reader agrees with the first reader on the sort-order field, the
reference-sequence count and every (name, length) dictionary entry in
order; it trivially succeeds over zero or one reader; and once a
mismatching reader is hit the verdict no longer depends on the readers
after it (they are not checked). -/
theorem claim_C4_validate_readers (s : MultiReaderState) :
    (ValidateReaders s = true ↔
      ∀ firstItem ∈ s.readers.head?, ∀ mi ∈ s.readers,
        readerAgrees firstItem.reader mi.reader) ∧
    (s.readers.length ≤ 1 → ValidateReaders s = true) ∧
    (∀ (first : BamReader) (mi : MergeItem), ¬ readerAgrees first mi.reader →
      ∀ pre post post',
        validateLoop first (pre ++ mi :: post) =
          validateLoop first (pre ++ mi :: post')) := by
  refine ⟨?_, ?_, fun first mi hbad => validateLoop_stops first mi hbad⟩
  · cases hr : s.readers with
    | nil => simp [ValidateReaders, hr]
    | cons firstItem rest =>
      simp only [ValidateReaders, hr, List.head?_cons, Option.mem_def,
        Option.some.injEq]
      rw [validateLoop_iff]
      constructor
      · intro h fi hfi mi hmi
        rw [← hfi]
        exact h mi hmi
      · intro h mi hmi
        exact h firstItem rfl mi hmi
  · intro hlen
    cases hr : s.readers with
    | nil => simp [ValidateReaders, hr]
    | cons firstItem rest =>
      cases rest with
      | nil =>
        simp only [ValidateReaders, hr]
        rw [validateLoop_iff]
        intro mi hmi
        rw [List.mem_singleton.1 hmi]
        exact ⟨rfl, rfl, refEntriesEq_refl _⟩
      | cons b l =>
        rw [hr] at hlen
        simp at hlen

theorem claim_C4_witness :
    1 < demoOpened.readers.length ∧
    ValidateReaders demoOpened = true ∧
    (∀ firstItem ∈ demoOpened.readers.head?, ∀ mi ∈ demoOpened.readers,
      readerAgrees firstItem.reader mi.reader) :=
  ⟨by decide,
   (claim_C4_validate_readers demoOpened).1.mpr (by decide),
   (claim_C4_validate_readers demoOpened).1.mp (by decide)⟩

/-! ### Claim C3 -/

theorem openAll_fst_readers (oracle : String → Option BamReader) :
    ∀ (fns : List String) (s : MultiReaderState),
      (openAll oracle fns s).1.readers =
        s.readers ++ openedReaders oracle fns s.nextId := by
  intro fns
  induction fns with
  | nil => intro s; simp [openAll, openedReaders]
  | cons f rest ih =>
    intro s
    by_cases hf : f = ""
    · simp [openAll, openedReaders, hf, ih]
    · cases ho : oracle f with
      | some r => simp [openAll, openedReaders, hf, ho, ih]
      | none => simp [openAll, openedReaders, hf, ho, ih]

theorem openAll_snd (oracle : String → Option BamReader) :
    ∀ (fns : List String) (s : MultiReaderState),
      (openAll oracle fns s).2 =
        fns.all (fun f => f = "" || (oracle f).isSome) := by
  intro fns
  induction fns with
  | nil => intro s; simp [openAll]
  | cons f rest ih =>
    intro s
    by_cases hf : f = ""
    · simp [openAll, hf, ih]
    · cases ho : oracle f with
      | some r => simp [openAll, hf, ho, ih]
      | none => simp [openAll, hf, ho]

theorem openAll_failed_iff (oracle : String → Option BamReader)
    (fns : List String) (s : MultiReaderState) :
    (openAll oracle fns s).2 = false ↔
      ∃ f ∈ fns, f ≠ "" ∧ oracle f = none := by
  rw [openAll_snd]
  constructor
  · intro h
    by_contra hno
    push_neg at hno
    have hall : (fns.all fun f => f = "" || (oracle f).isSome) = true := by
      rw [List.all_eq_true]
      intro f hf
      by_cases hfe : f = ""
      · simp [hfe]
      · have hne := hno f hf hfe
        simp [Option.isSome_iff_ne_none.2 hne]
    rw [hall] at h
    simp at h
  · rintro ⟨f, hf, hne, hnone⟩
    by_contra htrue
    have hall : (fns.all fun f => f = "" || (oracle f).isSome) = true := by
      revert htrue
      cases fns.all fun f => f = "" || (oracle f).isSome <;> simp
    have := List.all_eq_true.1 hall f hf
    simp [hne, hnone] at this

/-- C3 (amended): `Open` appends (to the rewound prior collection) one
reader for every non-empty filename the oracle opens, regardless of earlier
failures, and returns false if and only if the initial rewind of the
already-open readers failed, or some attempted filename failed to open, or
cross-reader validation failed (run only when more than one reader is open
afterward), or the merge buffer update failed (which in fact never
happens). -/
theorem claim_C3_open_aggregation (oracle : String → Option BamReader)
    (fns : List String) (s : MultiReaderState) :
    ((openAll oracle fns (Rewind (Rewind s).1).1).1.readers =
       (Rewind (Rewind s).1).1.readers ++
         openedReaders oracle fns (Rewind (Rewind s).1).1.nextId) ∧
    ((Open oracle fns s).2 = false ↔
      ((Rewind s).2 = false ∨
       (∃ f ∈ fns, f ≠ "" ∧ oracle f = none) ∨
       (1 < (openAll oracle fns (Rewind (Rewind s).1).1).1.readers.length ∧
        ValidateReaders (openAll oracle fns (Rewind (Rewind s).1).1).1 = false) ∨
       (UpdateAlignmentCache (openAll oracle fns (Rewind (Rewind s).1).1).1).2 = false)) := by
  refine ⟨openAll_fst_readers oracle fns _, ?_⟩
  have hopen : (Open oracle fns s).2 =
      ((Rewind s).2 && (openAll oracle fns (Rewind (Rewind s).1).1).2 &&
        (if 1 < (openAll oracle fns (Rewind (Rewind s).1).1).1.readers.length
         then ValidateReaders (openAll oracle fns (Rewind (Rewind s).1).1).1
         else true) &&
        (UpdateAlignmentCache (openAll oracle fns (Rewind (Rewind s).1).1).1).2) := rfl
  have hB := openAll_failed_iff oracle fns (Rewind (Rewind s).1).1
  have hV : ((if 1 < (openAll oracle fns (Rewind (Rewind s).1).1).1.readers.length
              then ValidateReaders (openAll oracle fns (Rewind (Rewind s).1).1).1
              else true) = false) ↔
      (1 < (openAll oracle fns (Rewind (Rewind s).1).1).1.readers.length ∧
       ValidateReaders (openAll oracle fns (Rewind (Rewind s).1).1).1 = false) := by
    by_cases hl : 1 < (openAll oracle fns (Rewind (Rewind s).1).1).1.readers.length <;>
      simp [hl]
  rw [hopen, update_snd, Bool.and_true]
  constructor
  · intro h
    cases hA : (Rewind s).2 with
    | false => exact Or.inl rfl
    | true =>
      rw [hA, Bool.true_and] at h
      cases hB2 : (openAll oracle fns (Rewind (Rewind s).1).1).2 with
      | false => exact Or.inr (Or.inl (hB.1 hB2))
      | true =>
        rw [hB2, Bool.true_and] at h
        exact Or.inr (Or.inr (Or.inl (hV.1 h)))
  · intro h
    rcases h with h | h | h | h
    · rw [h, Bool.false_and, Bool.false_and]
    · rw [hB.2 h]
      simp
    · rw [hV.2 h]
      simp
    · simp at h

/-- C3 counterexample: with the rewind-failing `c.bam` already open,
`Open(["b.bam"])` returns false although every attempted filename opened
successfully, validation of the resulting two readers passes, and the
buffer update succeeds — the claim's three conditions are all absent, yet
the call fails (because the initial rewind failed). -/
theorem claim_C3_counterexample :
    (Open demoOracle2 ["b.bam"] demoOpenedC).2 = false ∧
    (∀ f ∈ ["b.bam"], f ≠ "" → (demoOracle2 f).isSome = true) ∧
    1 < (openAll demoOracle2 ["b.bam"] (Rewind (Rewind demoOpenedC).1).1).1.readers.length ∧
    ValidateReaders (openAll demoOracle2 ["b.bam"] (Rewind (Rewind demoOpenedC).1).1).1 = true ∧
    (UpdateAlignmentCache (openAll demoOracle2 ["b.bam"] (Rewind (Rewind demoOpenedC).1).1).1).2 = true := by
  decide

theorem claim_C3_witness :
    (Open demoOracle ["a.bam", "b.bam"] initialState).2 = false ↔
      ((Rewind initialState).2 = false ∨
       (∃ f ∈ ["a.bam", "b.bam"], f ≠ "" ∧ demoOracle f = none) ∨
       (1 < (openAll demoOracle ["a.bam", "b.bam"] (Rewind (Rewind initialState).1).1).1.readers.length ∧
        ValidateReaders (openAll demoOracle ["a.bam", "b.bam"] (Rewind (Rewind initialState).1).1).1 = false) ∨
       (UpdateAlignmentCache (openAll demoOracle ["a.bam", "b.bam"] (Rewind (Rewind initialState).1).1).1).2 = false) :=
  (claim_C3_open_aggregation demoOracle ["a.bam", "b.bam"] initialState).2

/-! ### Claim C9 -/

theorem closeFile_eq (s : MultiReaderState) (f : String) :
    CloseFile s f =
      (if (closeOneFilename s f).readers.isEmpty && (closeOneFilename s f).cache.isSome
       then { closeOneFilename s f with cache := none }
       else closeOneFilename s f) := rfl

theorem closeOne_found (s : MultiReaderState) (f : String) (mi : MergeItem)
    (hne : f ≠ "")
    (hf : s.readers.find? (fun x => x.reader.filename = f) = some mi) :
    closeOneFilename s f =
      { s with readers := s.readers.eraseP (fun x => x.reader.filename = f),
               cache := cacheRemove s.cache mi.rid } := by
  unfold closeOneFilename
  rw [if_neg hne, hf]

theorem closeOne_not_found (s : MultiReaderState) (f : String)
    (h : f = "" ∨ s.readers.find? (fun x => x.reader.filename = f) = none) :
    closeOneFilename s f = s := by
  unfold closeOneFilename
  rcases h with h | h
  · rw [if_pos h]
  · by_cases hf : f = ""
    · rw [if_pos hf]
    · rw [if_neg hf, h]

theorem closeFile_readers (s : MultiReaderState) (f : String) :
    (CloseFile s f).readers = (closeOneFilename s f).readers := by
  rw [closeFile_eq]
  by_cases h : ((closeOneFilename s f).readers.isEmpty
      && (closeOneFilename s f).cache.isSome) = true
  · rw [if_pos h]
  · rw [if_neg h]

theorem closeFile_of_nonempty (s : MultiReaderState) (f : String)
    (h : (closeOneFilename s f).readers ≠ []) :
    CloseFile s f = closeOneFilename s f := by
  rw [closeFile_eq, if_neg]
  intro hcon
  rw [Bool.and_eq_true] at hcon
  exact h (by simpa using hcon.1)

theorem closeFile_cache_of_empty (s : MultiReaderState) (f : String)
    (h : (closeOneFilename s f).readers = []) :
    (CloseFile s f).cache = none := by
  rw [closeFile_eq]
  by_cases hs : (closeOneFilename s f).cache.isSome = true
  · rw [if_pos (by simp [h, hs])]
  · rw [if_neg (by simp [hs])]
    exact Option.not_isSome_iff_eq_none.1 hs

/-- C9 (amended): closing a filename closes at most the first reader whose
filename matches — that reader's cache entry is removed and the collection
shrinks by exactly one; closing the last remaining reader clears and
releases the merge buffer, after which `GetNextAlignment` fails; and
closing a filename not present among open readers leaves the reader
collection unchanged and, when readers remain open, changes nothing at all
— when no readers are open it additionally releases any allocated (empty)
merge buffer. -/
theorem claim_C9_close_semantics (s : MultiReaderState) (f : String) :
    (∀ mi, f ≠ "" →
      s.readers.find? (fun x => x.reader.filename = f) = some mi →
      ((CloseFile s f).readers = s.readers.eraseP (fun x => x.reader.filename = f) ∧
       (CloseFile s f).readers.length + 1 = s.readers.length ∧
       (1 < s.readers.length → (CloseFile s f).cache = cacheRemove s.cache mi.rid) ∧
       (s.readers.length = 1 →
         (CloseFile s f).readers = [] ∧ (CloseFile s f).cache = none ∧
         ∀ al, GetNextAlignment (CloseFile s f) al = (false, al, CloseFile s f)))) ∧
    ((f = "" ∨ s.readers.find? (fun x => x.reader.filename = f) = none) →
      ((CloseFile s f).readers = s.readers ∧
       (s.readers ≠ [] → CloseFile s f = s) ∧
       (s.readers = [] → (CloseFile s f).cache = none))) := by
  constructor
  · intro mi hne hf
    have hmem : mi ∈ s.readers := List.mem_of_find?_eq_some hf
    have hpred := List.find?_some hf
    have hone := closeOne_found s f mi hne hf
    have hlen : (s.readers.eraseP (fun x => x.reader.filename = f)).length
        = s.readers.length - 1 := List.length_eraseP_of_mem hmem hpred
    have hreaders : (CloseFile s f).readers
        = s.readers.eraseP (fun x => x.reader.filename = f) := by
      rw [closeFile_readers, hone]
    have hpos : 0 < s.readers.length := List.length_pos_of_mem hmem
    refine ⟨hreaders, ?_, ?_, ?_⟩
    · rw [hreaders, hlen]
      omega
    · intro hgt
      have hne2 : (closeOneFilename s f).readers ≠ [] := by
        rw [hone]
        intro hcon
        have := congrArg List.length hcon
        rw [hlen] at this
        simp at this
        omega
      rw [closeFile_of_nonempty s f hne2, hone]
    · intro heq
      have hnil : (closeOneFilename s f).readers = [] := by
        rw [hone]
        have : (s.readers.eraseP (fun x => x.reader.filename = f)).length = 0 := by
          rw [hlen, heq]
        exact List.length_eq_zero.1 this
      have hcache := closeFile_cache_of_empty s f hnil
      refine ⟨by rw [hreaders]; simpa [hone] using hnil, hcache, ?_⟩
      intro al
      exact pop_fail (CloseFile s f) al true (Or.inl hcache)
  · intro h
    have hone := closeOne_not_found s f h
    constructor
    · rw [closeFile_readers, hone]
    constructor
    · intro hne2
      rw [closeFile_of_nonempty s f (by rw [hone]; exact hne2), hone]
    · intro hnil
      exact closeFile_cache_of_empty s f (by rw [hone]; exact hnil)

/-- C9 counterexample: after a successful `Open` of no filenames, no
readers are open but an (empty, unsorted) merge buffer is allocated;
closing an absent filename is then not free of side effects — it releases
the buffer, so the claim's unconditional no-op clause fails. -/
theorem claim_C9_counterexample :
    (∀ mi ∈ demoEmptyOpened.readers, mi.reader.filename ≠ "x.bam") ∧
    demoEmptyOpened.cache = some (.unsorted, []) ∧
    CloseFile demoEmptyOpened "x.bam" ≠ demoEmptyOpened ∧
    (CloseFile demoEmptyOpened "x.bam").cache = none := by
  decide

theorem claim_C9_witness :
    (CloseFile demoOpened "a.bam").readers
        = demoOpened.readers.eraseP (fun x => x.reader.filename = "a.bam") ∧
    (CloseFile demoOpened "a.bam").readers.length + 1 = demoOpened.readers.length := by
  have h := (claim_C9_close_semantics demoOpened "a.bam").1
    ⟨0, { readerA with pending := [] }⟩ (by decide) (by decide)
  exact ⟨h.1, h.2.1⟩

/-! ### Claim C5: the per-reader lookahead invariant -/

theorem rewindReaders_rids (l : List MergeItem) :
    (RewindReaders l).1.map MergeItem.rid = l.map MergeItem.rid := by
  induction l with
  | nil => rfl
  | cons mi rest ih => simp [RewindReaders, ih]

theorem stateInv_readers_congr (s : MultiReaderState) (readers' : List MergeItem)
    (hr : readers'.map MergeItem.rid = s.readers.map MergeItem.rid)
    (h : StateInv s) : StateInv { s with readers := readers' } := by
  obtain ⟨h1, h2, h3, h4⟩ := h
  refine ⟨by rw [hr]; exact h1, ?_, ?_, h4⟩
  · intro mi hmi
    have hmem : mi.rid ∈ readers'.map MergeItem.rid := List.mem_map_of_mem _ hmi
    rw [hr] at hmem
    rcases List.mem_map.1 hmem with ⟨mi0, hm0, hr0⟩
    rw [show ({ s with readers := readers' } : MultiReaderState).nextId = s.nextId from rfl,
      ← hr0]
    exact h2 mi0 hm0
  · intro it hit
    rw [hr]
    exact h3 it hit

theorem rewind_fst_readers (s : MultiReaderState) :
    (Rewind s).2 = false →
      (Rewind s).1 = { s with readers := (RewindReaders s.readers).1 } := by
  intro h
  unfold Rewind at h ⊢
  by_cases hok : (RewindReaders s.readers).2 = true
  · rw [if_neg (by simp [hok])] at h
    rw [update_snd] at h
    simp at h
  · have hx : (RewindReaders s.readers).2 = false := by
      revert hok
      cases (RewindReaders s.readers).2 <;> simp
    rw [if_pos (by simp [hx])]

theorem rewind_inv (s : MultiReaderState) (h : StateInv s) :
    StateInv (Rewind s).1 := by
  unfold Rewind
  by_cases hok : (RewindReaders s.readers).2 = true
  · rw [if_neg (by simp [hok])]
    exact update_inv _ (stateInv_readers_congr s _ (rewindReaders_rids s.readers) h)
  · have hx : (RewindReaders s.readers).2 = false := by
      revert hok
      cases (RewindReaders s.readers).2 <;> simp
    rw [if_pos (by simp [hx])]
    exact stateInv_readers_congr s _ (rewindReaders_rids s.readers) h

theorem rewind_coherent_of_ok (s : MultiReaderState)
    (h : (Rewind s).2 = true) : CacheCoherent (Rewind s).1 := by
  unfold Rewind at h ⊢
  by_cases hok : (RewindReaders s.readers).2 = true
  · rw [if_neg (by simp [hok])] at h ⊢
    exact update_coherent _
  · have hx : (RewindReaders s.readers).2 = false := by
      revert hok
      cases (RewindReaders s.readers).2 <;> simp
    rw [if_pos (by simp [hx])] at h
    simp at h

theorem applySeek_rid (seek : BamReader → Option BamReader) (mi : MergeItem) :
    (applySeek seek mi).rid = mi.rid := by
  cases h : seek mi.reader <;> simp [applySeek, h]

theorem seekReaders_rids (seek : BamReader → Option BamReader)
    (s : MultiReaderState) :
    (seekReaders seek s).readers.map MergeItem.rid =
      s.readers.map MergeItem.rid := by
  rw [seekReaders_readers]
  induction s.readers with
  | nil => rfl
  | cons mi rest ih => simp [applySeek_rid, ih]

theorem jump_inv (seek : BamReader → Option BamReader) (s : MultiReaderState)
    (h : StateInv s) : StateInv (Jump seek s).1 :=
  update_inv _ (stateInv_readers_congr s _ (seekReaders_rids seek s) h)

theorem openAll_inv (oracle : String → Option BamReader) :
    ∀ (fns : List String) (s : MultiReaderState), StateInv s →
      StateInv (openAll oracle fns s).1 := by
  intro fns
  induction fns with
  | nil => intro s h; exact h
  | cons f rest ih =>
    intro s h
    by_cases hf : f = ""
    · simp only [openAll, if_pos hf]
      exact ih s h
    · cases ho : oracle f with
      | none =>
        simp only [openAll, if_neg hf, ho]
        exact ih s h
      | some r =>
        simp only [openAll, if_neg hf, ho]
        apply ih
        obtain ⟨h1, h2, h3, h4⟩ := h
        refine ⟨?_, ?_, ?_, h4⟩
        · rw [List.map_append]
          rw [List.nodup_append]
          refine ⟨h1, by simp, ?_⟩
          intro x hx hx2
          simp only [List.map_cons, List.map_nil, List.mem_singleton] at hx2
          rcases List.mem_map.1 hx with ⟨mi0, hm0, hr0⟩
          have := h2 mi0 hm0
          omega
        · intro mi hmi
          rcases List.mem_append.1 hmi with h5 | h5
          · have := h2 mi h5
            simp only
            omega
          · rw [List.mem_singleton.1 h5]
            simp only
            omega
        · intro it hit
          rw [List.map_append]
          exact List.mem_append_left _ (h3 it hit)

theorem open_inv (oracle : String → Option BamReader) (fns : List String)
    (s : MultiReaderState) (h : StateInv s) :
    StateInv (Open oracle fns s).1 ∧ CacheCoherent (Open oracle fns s).1 := by
  have h1 := rewind_inv s h
  have h2 := rewind_inv _ h1
  have h3 := openAll_inv oracle fns _ h2
  exact ⟨update_inv _ h3, update_coherent _⟩

theorem find?_eraseP_rids (p : MergeItem → Bool) (mi : MergeItem) :
    ∀ l : List MergeItem, l.find? p = some mi →
      ∀ n, n ∈ l.map MergeItem.rid → n ≠ mi.rid →
        n ∈ (l.eraseP p).map MergeItem.rid := by
  intro l
  induction l with
  | nil => intro h; simp at h
  | cons x xs ih =>
    intro h n hn hne
    by_cases hp : p x = true
    · rw [List.find?_cons_of_pos _ hp] at h
      have hx : x = mi := Option.some.inj h
      rw [List.eraseP_cons_of_pos hp]
      rw [List.map_cons] at hn
      rcases List.mem_cons.1 hn with h5 | h5
      · exact absurd (h5.trans (by rw [hx])) hne
      · exact h5
    · rw [List.find?_cons_of_neg _ hp] at h
      rw [List.eraseP_cons_of_neg hp]
      rw [List.map_cons] at hn ⊢
      rcases List.mem_cons.1 hn with h5 | h5
      · rw [h5]
        exact List.mem_cons_self _ _
      · exact List.mem_cons_of_mem _ (ih h n h5 hne)

theorem find?_eraseP_not_mem_rid (p : MergeItem → Bool) (mi : MergeItem) :
    ∀ l : List MergeItem, (l.map MergeItem.rid).Nodup → l.find? p = some mi →
      mi.rid ∉ (l.eraseP p).map MergeItem.rid := by
  intro l
  induction l with
  | nil => intro _ h; simp at h
  | cons x xs ih =>
    intro hnd h
    rw [List.map_cons, List.nodup_cons] at hnd
    by_cases hp : p x = true
    · rw [List.find?_cons_of_pos _ hp] at h
      have hx : x = mi := Option.some.inj h
      rw [List.eraseP_cons_of_pos hp]
      rw [← hx]
      exact hnd.1
    · rw [List.find?_cons_of_neg _ hp] at h
      rw [List.eraseP_cons_of_neg hp, List.map_cons]
      intro hcon
      rcases List.mem_cons.1 hcon with h5 | h5
      · have hmem : mi ∈ xs := List.mem_of_find?_eq_some h
        exact hnd.1 (h5 ▸ List.mem_map_of_mem MergeItem.rid hmem)
      · exact ih hnd.2 h h5

theorem cacheItems_remove (s : MultiReaderState) (readers' : List MergeItem)
    (n : Nat) :
    cacheItems { s with readers := readers', cache := cacheRemove s.cache n } =
      (cacheItems s).filter (fun it => it.rid ≠ n) := by
  cases hc : s.cache with
  | none => simp [cacheItems, cacheRemove, hc]
  | some pi =>
    obtain ⟨p, items⟩ := pi
    simp [cacheItems, cacheRemove, hc]

theorem closeOne_inv (s : MultiReaderState) (f : String) (h : StateInv s) :
    StateInv (closeOneFilename s f) := by
  by_cases hf : f = ""
  · rw [closeOne_not_found s f (Or.inl hf)]; exact h
  · cases hfind : s.readers.find? (fun x => x.reader.filename = f) with
    | none => rw [closeOne_not_found s f (Or.inr hfind)]; exact h
    | some mi =>
      rw [closeOne_found s f mi hf hfind]
      obtain ⟨h1, h2, h3, h4⟩ := h
      have hsub : (s.readers.eraseP (fun x => x.reader.filename = f)).Sublist s.readers :=
        List.eraseP_sublist s.readers
      have hci := cacheItems_remove s
        (s.readers.eraseP (fun x => x.reader.filename = f)) mi.rid
      refine ⟨?_, ?_, ?_, ?_⟩
      · exact (hsub.map MergeItem.rid).nodup h1
      · intro mi2 hmi2
        exact h2 mi2 (hsub.subset hmi2)
      · intro it hit
        rw [hci] at hit
        have hmem2 := List.mem_of_mem_filter hit
        have hrne : it.rid ≠ mi.rid := by
          have := List.of_mem_filter hit
          simpa using this
        exact find?_eraseP_rids _ mi s.readers hfind it.rid (h3 it hmem2) hrne
      · rw [hci]
        exact ((List.filter_sublist _).map CacheItem.rid).nodup h4

theorem closeOne_coherent (s : MultiReaderState) (f : String)
    (hI : StateInv s) (hC : CacheCoherent s) :
    CacheCoherent (closeOneFilename s f) := by
  by_cases hf : f = ""
  · rw [closeOne_not_found s f (Or.inl hf)]; exact hC
  · cases hfind : s.readers.find? (fun x => x.reader.filename = f) with
    | none => rw [closeOne_not_found s f (Or.inr hfind)]; exact hC
    | some mi =>
      rw [closeOne_found s f mi hf hfind]
      obtain ⟨h1, h2, h3, h4⟩ := hI
      have hsub : (s.readers.eraseP (fun x => x.reader.filename = f)).Sublist s.readers :=
        List.eraseP_sublist s.readers
      have hci := cacheItems_remove s
        (s.readers.eraseP (fun x => x.reader.filename = f)) mi.rid
      intro hsome mi' hmi' hno
      rw [hci] at hno
      have hsome2 : s.cache.isSome = true := by
        cases hc : s.cache with
        | none => rw [show cacheRemove s.cache mi.rid = none from by rw [hc]; rfl] at hsome; simp at hsome
        | some pi => rfl
      have hmi'2 : mi' ∈ s.readers := hsub.subset hmi'
      have hmrne : mi'.rid ≠ mi.rid := by
        intro hx
        apply find?_eraseP_not_mem_rid _ mi s.readers h1 hfind
        rw [← hx]
        exact List.mem_map_of_mem MergeItem.rid hmi'
      apply hC hsome2 mi' hmi'2
      intro it hit
      by_cases hr : it.rid = mi.rid
      · rw [hr]
        exact fun hx => hmrne hx.symm
      · apply hno it
        rw [List.mem_filter]
        exact ⟨hit, by simpa using hr⟩

theorem closeFold_inv : ∀ (fns : List String) (s : MultiReaderState),
    StateInv s → CacheCoherent s →
      StateInv (fns.foldl closeOneFilename s) ∧
        CacheCoherent (fns.foldl closeOneFilename s) := by
  intro fns
  induction fns with
  | nil => intro s h1 h2; exact ⟨h1, h2⟩
  | cons f rest ih =>
    intro s h1 h2
    exact ih _ (closeOne_inv s f h1) (closeOne_coherent s f h1 h2)

theorem closeFiles_inv (s : MultiReaderState) (fns : List String)
    (h1 : StateInv s) (h2 : CacheCoherent s) :
    StateInv (CloseFiles s fns) ∧ CacheCoherent (CloseFiles s fns) := by
  obtain ⟨hI, hC⟩ := closeFold_inv fns s h1 h2
  unfold CloseFiles
  by_cases hcond : ((fns.foldl closeOneFilename s).readers.isEmpty
      && (fns.foldl closeOneFilename s).cache.isSome) = true
  · rw [if_pos hcond]
    obtain ⟨a1, a2, a3, a4⟩ := hI
    refine ⟨⟨a1, a2, ?_, ?_⟩, ?_⟩
    · intro it hit
      simp [cacheItems] at hit
    · simp [cacheItems]
    · intro hs
      simp at hs
  · rw [if_neg hcond]
    exact ⟨hI, hC⟩

theorem pop_preserve (s : MultiReaderState) (al : BamAlignment) (b : Bool)
    (hI : StateInv s) (hC : CacheCoherent s) :
    StateInv (PopNextCachedAlignment s al b).2.2 ∧
      CacheCoherent (PopNextCachedAlignment s al b).2.2 := by
  cases hc : s.cache with
  | none => rw [pop_fail s al b (Or.inl hc)]; exact ⟨hI, hC⟩
  | some pi =>
    obtain ⟨p, items⟩ := pi
    by_cases hne : items = []
    · rw [pop_fail s al b (Or.inr (by simp [cacheItems, hc, hne]))]
      exact ⟨hI, hC⟩
    · have hcs : cacheItems s = items := by simp [cacheItems, hc]
      have hnn : takeFirst p items ≠ none := fun hx => hne ((takeFirst_eq_none _ _).1 hx)
      obtain ⟨⟨it, rest⟩, ht⟩ := Option.ne_none_iff_exists'.1 hnn
      obtain ⟨h1, h2, h3, h4⟩ := hI
      have hinr : it.rid ∈ s.readers.map MergeItem.rid := by
        apply h3
        rw [hcs]
        exact takeFirst_mem _ _ _ _ ht
      obtain ⟨mi, hf, hmi, hrid⟩ := find_rid s.readers it.rid hinr
      rw [pop_succ s al b p items hc it rest ht mi hf]
      have hndcons : (it.rid :: rest.map CacheItem.rid).Nodup := by
        have hp2 := (takeFirst_perm _ items it rest ht).map CacheItem.rid
        rw [hcs] at h4
        exact hp2.nodup_iff.1 h4
      have hnotin : it.rid ∉ rest.map CacheItem.rid := (List.nodup_cons.1 hndcons).1
      have hndrest : (rest.map CacheItem.rid).Nodup := (List.nodup_cons.1 hndcons).2
      have hrestmem := takeFirst_rest_mem _ items it rest ht
      have hrestinr : ∀ o ∈ rest, o.rid ∈ s.readers.map MergeItem.rid := by
        intro o ho
        apply h3
        rw [hcs]
        exact hrestmem o ho
      have hsomeold : s.cache.isSome = true := by rw [hc]; rfl
      cases hp : mi.reader.pending with
      | nil =>
        dsimp only
        constructor
        · refine ⟨h1, h2, ?_, ?_⟩
          · intro o ho
            simp only [cacheItems] at ho
            exact hrestinr o ho
          · simp only [cacheItems]
            exact hndrest
        · intro hsome mi' hmi' hno
          simp only [cacheItems] at hno
          by_cases hmr : mi'.rid = it.rid
          · have hmm : mi' = mi := nodup_rid_inj s.readers h1 mi' mi hmi' hmi
              (by rw [hmr, hrid])
            rw [hmm]
            exact hp
          · apply hC hsomeold mi' hmi'
            intro it2 hit2
            rw [hcs] at hit2
            have hin2 : it2 ∈ it :: rest :=
              (takeFirst_perm _ items it rest ht).mem_iff.1 hit2
            rcases List.mem_cons.1 hin2 with h5 | h5
            · rw [h5]
              exact fun hx => hmr hx.symm
            · exact hno it2 h5
      | cons a0 tl =>
        dsimp only
        constructor
        · refine ⟨?_, ?_, ?_, ?_⟩
          · rw [setReader_rids]; exact h1
          · intro mi2 hmi2
            rcases setReader_mem _ _ _ mi2 hmi2 with ⟨hr2, _⟩ | hin
            · rw [show ({ s with
                  readers := setReader s.readers it.rid { mi.reader with pending := tl },
                  cache := some (p, rest ++ [⟨it.rid, a0⟩]) } : MultiReaderState).nextId
                    = s.nextId from rfl, hr2, ← hrid]
              exact h2 mi hmi
            · exact h2 mi2 hin
          · intro it2 hit2
            simp only [cacheItems] at hit2
            rw [setReader_rids]
            rcases List.mem_append.1 hit2 with h5 | h5
            · exact hrestinr it2 h5
            · rw [List.mem_singleton.1 h5]
              exact hinr
          · simp only [cacheItems, List.map_append, List.map_cons, List.map_nil]
            rw [List.nodup_append]
            refine ⟨hndrest, List.nodup_singleton _, ?_⟩
            intro x hx hx2
            rw [List.mem_singleton.1 hx2] at hx
            exact hnotin hx
        · intro hsome mi' hmi' hno
          simp only [cacheItems] at hno
          have hmr : mi'.rid ≠ it.rid := by
            intro hx
            exact hno ⟨it.rid, a0⟩
              (List.mem_append_right _ (List.mem_singleton_self _)) hx.symm
          rcases setReader_mem _ _ _ mi' hmi' with ⟨hr2, _⟩ | hin
          · exact absurd hr2 hmr
          · apply hC hsomeold mi' hin
            intro it2 hit2
            rw [hcs] at hit2
            have hin2 : it2 ∈ it :: rest :=
              (takeFirst_perm _ items it rest ht).mem_iff.1 hit2
            rcases List.mem_cons.1 hin2 with h5 | h5
            · rw [h5]
              exact fun hx => hmr hx.symm
            · exact hno it2 (List.mem_append_left _ h5)

/-- C5: after each public coordinator operation, every reader owns at most
one merge-buffer item and every item's reader is live in the collection
(`StateInv`), and the lookahead correspondence holds (`CacheCoherent`: a
reader without an item has exhausted its data, i.e. an item is present
exactly for readers with an undelivered produced record): the structural
invariant is preserved by Open, CloseFiles, both pops, Jump, SetRegion and
Rewind, and the lookahead correspondence by all of them except a Rewind
that reports failure (where the buffer is deliberately left untouched). -/
theorem claim_C5_invariants (s : MultiReaderState)
    (oracle : String → Option BamReader) (fns filenames : List String)
    (seek seek' : BamReader → Option BamReader) (al : BamAlignment)
    (hI : StateInv s) (hC : CacheCoherent s) :
    (StateInv (Open oracle fns s).1 ∧ CacheCoherent (Open oracle fns s).1) ∧
    (StateInv (CloseFiles s filenames) ∧ CacheCoherent (CloseFiles s filenames)) ∧
    (StateInv (GetNextAlignment s al).2.2 ∧
      CacheCoherent (GetNextAlignment s al).2.2) ∧
    (StateInv (GetNextAlignmentCore s al).2.2 ∧
      CacheCoherent (GetNextAlignmentCore s al).2.2) ∧
    (StateInv (Jump seek s).1 ∧ CacheCoherent (Jump seek s).1) ∧
    (StateInv (SetRegion seek' s).1 ∧ CacheCoherent (SetRegion seek' s).1) ∧
    (StateInv (Rewind s).1 ∧
      ((Rewind s).2 = true → CacheCoherent (Rewind s).1)) := by
  refine ⟨open_inv oracle fns s hI, closeFiles_inv s filenames hI hC,
    pop_preserve s al true hI hC, pop_preserve s al false hI hC,
    ⟨jump_inv seek s hI, update_coherent _⟩,
    ⟨jump_inv seek' s hI, update_coherent _⟩,
    rewind_inv s hI, fun h => rewind_coherent_of_ok s h⟩

theorem claim_C5_witness :
    StateInv demoOpened ∧ CacheCoherent demoOpened ∧
    StateInv (GetNextAlignment demoOpened dummyAl).2.2 ∧
    StateInv (CloseFiles demoOpened ["a.bam"]) ∧
    StateInv (Rewind demoOpened).1 := by
  have h := claim_C5_invariants demoOpened (fun _ => none) [] ["a.bam"]
    (fun _ => none) (fun _ => none) dummyAl (by decide) (by decide)
  exact ⟨by decide, by decide, h.2.2.1.1, h.2.1.1, h.2.2.2.2.2.2.1⟩
